import Mathlib

/-!
Shallow embedding of `src/niobot/utils/uptime_kuma/monitor.py` (class
`KumaMonitor`) for checking the specification's claims.

Modelling conventions:
- Latency samples, timestamps and the interval are rationals (ℚ); Python
  floats are abstracted to exact rationals.
- Python exceptions are the `PyExc` type; code that may raise returns
  `Except PyExc α`.
- `collections.deque(maxlen=100)` is a `List ℚ` together with the
  `dequeAppend` operation that drops from the left when the capacity of
  100 is exceeded.
- The host (niobot client) is external: the results of
  `status_getter`, `msg_getter`, `client.latency` and `http.get` enter the
  model as explicit `Except` values / functions, and `client.dispatch`
  calls are recorded in an event list.
-/

/-- Python exception values, as far as the claims need to distinguish them:
`ZeroDivisionError` (raised by `sum(h)/len(h)` on an empty history) and
any other exception, identified by a message. -/
inductive PyExc where
  | zeroDivision
  | exc (msg : String)
deriving DecidableEq, Repr

/-- Model of an `httpx.Response`: only the status code is ever inspected. -/
structure Response where
  status_code : Nat
deriving DecidableEq, Repr

/-- Query parameters built by `KumaMonitor.push` (monitor.py lines 138-143):
`status` is `"up"`/`"down"`, `msg` is the getter's string `or None`, and
`ping` is present only when `include_latency` is true. -/
structure Params where
  status : String
  msg : Option String
  ping : Option ℚ
deriving DecidableEq, Repr

/-- Notifications dispatched to the host via `self.client.dispatch`, plus the
`asyncio.sleep` of the loop, in emission order. The `self` (monitor)
argument, identical in every dispatch, is left implicit. -/
inductive Event where
  | kumaPush (resp : Response)
  | autopushStart
  | autopushEnd (resp : Response)
  | autopushError (e : PyExc)
  | sleepInterval (seconds : ℚ)
deriving DecidableEq, Repr

/-- Mutable state of a `KumaMonitor` relevant to push behaviour:
`include_latency` (line 81), the `_history` deque contents (line 83) and
`_last_push` (line 78). The `_task` handle is modelled separately in
`SchedulerState`. -/
structure KumaMonitor where
  include_latency : Bool
  history : List ℚ
  last_push : Option ℚ
deriving DecidableEq, Repr

/-- Python's `round(q, 2)` on an exact rational: round to 2 decimal places
(ties are immaterial to every claim). -/
def round2 (q : ℚ) : ℚ := (⌊q * 100 + 1 / 2⌋ : ℚ) / 100

/-- One `deque.append` on a deque with `maxlen=100` (monitor.py line 83,
line 92): append on the right, evicting from the left beyond capacity. -/
def dequeAppend (h : List ℚ) (x : ℚ) : List ℚ :=
  let h2 := h ++ [x]
  if 100 < h2.length then h2.drop (h2.length - 100) else h2

/-- History contents after recording a whole sequence of samples into an
initially empty deque. -/
def kumaRecordAll (xs : List ℚ) : List ℚ := xs.foldl dequeAppend []

/-- Property `KumaMonitor.average_latency` (monitor.py lines 94-97):
`round(sum(self._history) / len(self._history), 2)`. On an empty history
Python raises `ZeroDivisionError`, modelled by the error branch. -/
def averageLatency (h : List ℚ) : Except PyExc ℚ :=
  if h.length = 0 then .error .zeroDivision
  else .ok (round2 (h.sum / (h.length : ℚ)))

/-- Method `KumaMonitor._message_listener` (monitor.py lines 91-92):
`self._history.append(self.client.latency(message))`. `latencyRes` is the
outcome of the host call `self.client.latency(message)`; there is no
try/except, so an error outcome propagates out of the handler. -/
def messageListener (latencyRes : Except PyExc ℚ) (history : List ℚ) :
    Except PyExc (List ℚ) :=
  match latencyRes with
  | .error e => .error e
  | .ok v => .ok (dequeAppend history v)

/-- Helper for `"msg": msg or None` (monitor.py line 140): a falsy message
(None or the empty string) becomes None. -/
def orNone (msg : Option String) : Option String :=
  match msg with
  | some s => if s = "" then none else some s
  | none => none

deriving instance DecidableEq for Except

/-- Result of one `KumaMonitor.push` call: the value returned to the caller
(or the propagated exception), the monitor state afterwards, the
notifications dispatched, and the HTTP requests issued. -/
structure PushResult where
  result : Except PyExc Response
  state : KumaMonitor
  events : List Event
  requests : List Params
deriving DecidableEq, Repr

/-- Method `KumaMonitor.push` (monitor.py lines 126-150), line by line:
`status = self.status_getter(self)` and `msg = self.msg_getter(self)`
(their outcomes are `statusRes`, `msgRes`; an exception propagates and
nothing further happens); build `params` with `status`, `msg or None`, and
- only if `include_latency` - `ping = self.average_latency` (which may
raise on an empty history, before any request); `resp = await
self.http.get(self.push_url, params=params)` (outcome `httpGet params`);
on status code 200 set `self._last_push = time.time()` (the parameter
`now`); dispatch `kuma_push` with the response; return `resp`. -/
def pushRun (m : KumaMonitor) (statusRes : Except PyExc Bool)
    (msgRes : Except PyExc (Option String))
    (httpGet : Params → Except PyExc Response) (now : ℚ) : PushResult :=
  match statusRes with
  | .error e => ⟨.error e, m, [], []⟩
  | .ok status =>
    match msgRes with
    | .error e => ⟨.error e, m, [], []⟩
    | .ok msg =>
      let params0 : Params := ⟨if status then "up" else "down", orNone msg, none⟩
      let paramsRes : Except PyExc Params :=
        if m.include_latency then
          match averageLatency m.history with
          | .error e => .error e
          | .ok a => .ok { params0 with ping := some a }
        else .ok params0
      match paramsRes with
      | .error e => ⟨.error e, m, [], []⟩
      | .ok params =>
        match httpGet params with
        | .error e => ⟨.error e, m, [], [params]⟩
        | .ok resp =>
          ⟨.ok resp,
            if resp.status_code = 200 then { m with last_push := some now } else m,
            [.kumaPush resp], [params]⟩

/-- Scheduler-level trace of one iteration of `KumaMonitor.main_loop`
(monitor.py lines 153-162) given the outcome of `await self.push()`:
dispatch `kuma_autopush_start`; on a normal return dispatch
`kuma_autopush_end` with the response, on any exception dispatch
`kuma_autopush_error` with it (the exception is not re-raised); finally
`await asyncio.sleep(self.interval)`. -/
def iterTrace (interval : ℚ) (o : Except PyExc Response) : List Event :=
  [Event.autopushStart] ++
    (match o with
     | .ok r => [Event.autopushEnd r]
     | .error e => [Event.autopushError e]) ++
    [Event.sleepInterval interval]

/-- Trace of the `while True` loop of `main_loop` across the given
successive push outcomes: every outcome is processed by a full iteration
(no outcome, error included, terminates the loop). -/
def mainLoopTrace (interval : ℚ) : List (Except PyExc Response) → List Event
  | [] => []
  | o :: rest => iterTrace interval o ++ mainLoopTrace interval rest

/-- Number of occurrences of an event in a trace. -/
def countEvent (e : Event) : List Event → Nat
  | [] => 0
  | x :: rest => (if x = e then 1 else 0) + countEvent e rest

/-- State of the task bookkeeping of one monitor: `nextId` numbers the tasks
ever created, `running` holds the ids of main-loop tasks currently alive,
and `task` is the single reference `self._task` (monitor.py line 84). -/
structure SchedulerState where
  nextId : Nat
  running : List Nat
  task : Option Nat
deriving DecidableEq, Repr

/-- Method `KumaMonitor.start` (monitor.py lines 164-171):
`task = asyncio.create_task(self.main_loop())` starts a new loop (it runs
whether or not anything references it), then `self._task = task` replaces
the stored reference. The previously referenced task is not cancelled. -/
def schedStart (s : SchedulerState) : SchedulerState :=
  { nextId := s.nextId + 1, running := s.nextId :: s.running, task := some s.nextId }

/-- Method `KumaMonitor.stop` (monitor.py lines 173-179): if `self._task`
is set, cancel that task and clear the reference; otherwise do nothing.
No statement in the body can raise. -/
def schedStop (s : SchedulerState) : SchedulerState :=
  match s.task with
  | some t => { s with running := s.running.erase t, task := none }
  | none => s

/-- Lifecycle calls a user can make on the monitor. -/
inductive SchedOp where
  | start
  | stop
deriving DecidableEq, Repr

/-- Scheduler state of a freshly constructed monitor: no task yet. -/
def schedInit : SchedulerState := ⟨0, [], none⟩

/-- Run a sequence of start/stop calls from a given state. -/
def runOps (s : SchedulerState) : List SchedOp → SchedulerState
  | [] => s
  | op :: rest =>
    runOps (match op with | .start => schedStart s | .stop => schedStop s) rest

/-- Discipline under which `start` is only ever called while no loop is
running (each `start` is preceded by construction or an effective `stop`). -/
def safeOps (s : SchedulerState) : List SchedOp → Bool
  | [] => true
  | .start :: rest => s.running.isEmpty && safeOps (schedStart s) rest
  | .stop :: rest => safeOps (schedStop s) rest

/-! Helper lemmas about the bounded window. -/

/-- Appending to the last-100 window of `s` yields the last-100 window of
`s ++ [x]`. -/
lemma dequeAppend_lastN (s : List ℚ) (x : ℚ) :
    dequeAppend (s.drop (s.length - 100)) x
      = (s ++ [x]).drop ((s ++ [x]).length - 100) := by
  by_cases hle : s.length ≤ 99
  · have h0 : s.length - 100 = 0 := by omega
    have h1 : (s ++ [x]).length - 100 = 0 := by
      rw [List.length_append]; simp; omega
    rw [h0, h1, List.drop_zero, List.drop_zero]
    have h2 : ¬ 100 < (s ++ [x]).length := by
      rw [List.length_append]; simp; omega
    simp [dequeAppend, h2]
    exact fun hcontra => absurd hcontra (by omega)
  · push_neg at hle
    have hlen : (s.drop (s.length - 100)).length = 100 := by
      rw [List.length_drop]; omega
    have hgt : 100 < (s.drop (s.length - 100) ++ [x]).length := by
      rw [List.length_append, hlen]; simp
    simp only [dequeAppend, if_pos hgt]
    have hd1 : (s.drop (s.length - 100) ++ [x]).length - 100 = 1 := by
      rw [List.length_append, hlen]; simp
    rw [hd1, List.drop_append_of_le_length (by rw [hlen]; omega), List.drop_drop]
    have hr : (s ++ [x]).length - 100 = s.length - 100 + 1 := by
      rw [List.length_append]; simp; omega
    rw [hr, List.drop_append_of_le_length (by omega)]

/-- Folding appends over the last-100 window tracks the last-100 window of
the whole sequence. -/
lemma foldl_dequeAppend_lastN (xs : List ℚ) :
    ∀ s : List ℚ, List.foldl dequeAppend (s.drop (s.length - 100)) xs
      = (s ++ xs).drop ((s ++ xs).length - 100) := by
  induction xs with
  | nil => intro s; simp
  | cons x xs ih =>
    intro s
    rw [List.foldl_cons, dequeAppend_lastN, ih (s ++ [x]), List.append_assoc]
    rfl

/-- The deque's contents after recording a sequence are exactly the last 100
samples, in insertion order. -/
lemma kumaRecordAll_eq_drop (xs : List ℚ) :
    kumaRecordAll xs = xs.drop (xs.length - 100) := by
  have h := foldl_dequeAppend_lastN xs []
  simpa [kumaRecordAll] using h

/-- Sanity instance from the spec: samples 10, 20, 30 average to 20. -/
lemma averageLatency_ten_twenty_thirty :
    averageLatency (kumaRecordAll [10, 20, 30]) = .ok 20 := by
  have h : kumaRecordAll [10, 20, 30] = [10, 20, 30] := by decide
  rw [h]
  simp only [averageLatency]
  norm_num [round2]

/-- C2: the window retains at most the 100 most recently recorded samples in
insertion order (oldest evicted first), `average_latency` is the arithmetic
mean of exactly the retained samples rounded to 2 decimals, and for at most
100 samples the mean ranges over all of them. -/
theorem C2_latency_window (xs : List ℚ) (hne : xs ≠ []) :
    kumaRecordAll xs = xs.drop (xs.length - 100) ∧
    (kumaRecordAll xs).length ≤ 100 ∧
    averageLatency (kumaRecordAll xs) =
      .ok (round2 ((xs.drop (xs.length - 100)).sum /
        ((xs.drop (xs.length - 100)).length : ℚ))) ∧
    (xs.length ≤ 100 → kumaRecordAll xs = xs) := by
  have hrec := kumaRecordAll_eq_drop xs
  have hpos : 0 < xs.length := List.length_pos.mpr hne
  have hlen : (kumaRecordAll xs).length = xs.length - (xs.length - 100) := by
    rw [hrec, List.length_drop]
  refine ⟨hrec, by omega, ?_, ?_⟩
  · have hne2 : ¬ ((xs.drop (xs.length - 100)).length = 0) := by
      rw [List.length_drop]; omega
    rw [hrec]
    simp only [averageLatency, if_neg hne2]
  · intro h100
    have h0 : xs.length - 100 = 0 := by omega
    rw [hrec, h0, List.drop_zero]

/-- Witness for C2 at the concrete sample sequence 10, 20, 30. -/
theorem C2_latency_window_witness :
    (([10, 20, 30] : List ℚ) ≠ []) ∧
    (kumaRecordAll [10, 20, 30]
        = ([10, 20, 30] : List ℚ).drop (([10, 20, 30] : List ℚ).length - 100) ∧
      (kumaRecordAll [10, 20, 30]).length ≤ 100 ∧
      averageLatency (kumaRecordAll [10, 20, 30]) =
        .ok (round2 ((([10, 20, 30] : List ℚ).drop
            (([10, 20, 30] : List ℚ).length - 100)).sum /
          ((([10, 20, 30] : List ℚ).drop
            (([10, 20, 30] : List ℚ).length - 100)).length : ℚ))) ∧
      (([10, 20, 30] : List ℚ).length ≤ 100 →
        kumaRecordAll [10, 20, 30] = ([10, 20, 30] : List ℚ))) :=
  ⟨by decide, C2_latency_window [10, 20, 30] (by decide)⟩

/-! Helper lemmas about loop traces. -/

/-- The loop trace over a concatenation of outcome lists is the concatenation
of the traces. -/
lemma mainLoopTrace_append (i : ℚ) (os₁ os₂ : List (Except PyExc Response)) :
    mainLoopTrace i (os₁ ++ os₂) = mainLoopTrace i os₁ ++ mainLoopTrace i os₂ := by
  induction os₁ with
  | nil => simp [mainLoopTrace]
  | cons o os ih => simp [mainLoopTrace, ih]

/-- Event counts add over trace concatenation. -/
lemma countEvent_append (e : Event) (t₁ t₂ : List Event) :
    countEvent e (t₁ ++ t₂) = countEvent e t₁ + countEvent e t₂ := by
  induction t₁ with
  | nil => simp [countEvent]
  | cons x t ih => simp [countEvent, ih]; omega

/-- Every iteration emits exactly one autopush-start notification. -/
lemma countEvent_iterTrace_start (i : ℚ) (o : Except PyExc Response) :
    countEvent Event.autopushStart (iterTrace i o) = 1 := by
  cases o <;> simp [iterTrace, countEvent]

/-- Every iteration performs exactly one interval-length sleep. -/
lemma countEvent_iterTrace_sleep (i : ℚ) (o : Except PyExc Response) :
    countEvent (Event.sleepInterval i) (iterTrace i o) = 1 := by
  cases o <;> simp [iterTrace, countEvent]

/-- A loop run over n push outcomes emits exactly n start notifications. -/
lemma countEvent_mainLoopTrace_start (i : ℚ) (os : List (Except PyExc Response)) :
    countEvent Event.autopushStart (mainLoopTrace i os) = os.length := by
  induction os with
  | nil => simp [mainLoopTrace, countEvent]
  | cons o os ih =>
    simp [mainLoopTrace, countEvent_append, countEvent_iterTrace_start, ih]
    omega

/-- A loop run over n push outcomes performs exactly n interval sleeps. -/
lemma countEvent_mainLoopTrace_sleep (i : ℚ) (os : List (Except PyExc Response)) :
    countEvent (Event.sleepInterval i) (mainLoopTrace i os) = os.length := by
  induction os with
  | nil => simp [mainLoopTrace, countEvent]
  | cons o os ih =>
    simp [mainLoopTrace, countEvent_append, countEvent_iterTrace_sleep, ih]
    omega

/-- C1: every iteration of the autopush loop emits a start notification
before the push outcome is handled, a completed notification on a normal
return and an error notification on an exception (without terminating or
re-raising: a further outcome is processed the same way after any prefix),
each iteration ends with exactly one interval-length wait, and for a push
that raises on iteration 2 and succeeds on iterations 1 and 3 the trace is
starting, completed, starting, failed, starting, completed (with the
unconditional interval wait after each). -/
theorem C1_autopush_loop (i : ℚ) (os : List (Except PyExc Response)) :
    countEvent Event.autopushStart (mainLoopTrace i os) = os.length ∧
    countEvent (Event.sleepInterval i) (mainLoopTrace i os) = os.length ∧
    (∀ o, mainLoopTrace i (os ++ [o]) = mainLoopTrace i os ++ iterTrace i o) ∧
    (∀ r₁ e r₃, mainLoopTrace i [.ok r₁, .error e, .ok r₃] =
      [Event.autopushStart, Event.autopushEnd r₁, Event.sleepInterval i,
       Event.autopushStart, Event.autopushError e, Event.sleepInterval i,
       Event.autopushStart, Event.autopushEnd r₃, Event.sleepInterval i]) := by
  refine ⟨countEvent_mainLoopTrace_start i os, countEvent_mainLoopTrace_sleep i os, ?_, ?_⟩
  · intro o
    rw [mainLoopTrace_append]
    simp [mainLoopTrace]
  · intro r₁ e r₃
    simp [mainLoopTrace, iterTrace]

/-! Case equations for `pushRun`. -/

/-- A raising status getter propagates before anything else happens. -/
lemma pushRun_error_status (m : KumaMonitor) (e : PyExc)
    (msgRes : Except PyExc (Option String))
    (f : Params → Except PyExc Response) (now : ℚ) :
    pushRun m (.error e) msgRes f now = ⟨.error e, m, [], []⟩ := rfl

/-- A raising message getter propagates before anything else happens. -/
lemma pushRun_error_msg (m : KumaMonitor) (b : Bool) (e : PyExc)
    (f : Params → Except PyExc Response) (now : ℚ) :
    pushRun m (.ok b) (.error e) f now = ⟨.error e, m, [], []⟩ := rfl

/-- With latency reporting disabled the push goes straight to the request,
whose parameters carry no ping value. -/
lemma pushRun_no_latency (m : KumaMonitor) (b : Bool) (msg : Option String)
    (f : Params → Except PyExc Response) (now : ℚ)
    (hinc : m.include_latency = false) :
    pushRun m (.ok b) (.ok msg) f now =
      match f ⟨if b then "up" else "down", orNone msg, none⟩ with
      | .error e => ⟨.error e, m, [], [⟨if b then "up" else "down", orNone msg, none⟩]⟩
      | .ok resp =>
        ⟨.ok resp,
          if resp.status_code = 200 then { m with last_push := some now } else m,
          [.kumaPush resp], [⟨if b then "up" else "down", orNone msg, none⟩]⟩ := by
  simp [pushRun, hinc]

/-- With latency reporting enabled and an empty history, the average raises
a ZeroDivisionError before any request is issued. -/
lemma pushRun_empty_history (m : KumaMonitor) (b : Bool) (msg : Option String)
    (f : Params → Except PyExc Response) (now : ℚ)
    (hinc : m.include_latency = true) (hh : m.history = []) :
    pushRun m (.ok b) (.ok msg) f now = ⟨.error .zeroDivision, m, [], []⟩ := by
  simp [pushRun, hinc, averageLatency, hh]

/-- With latency reporting enabled and a computed average, the push issues
the request with the average as the ping value. -/
lemma pushRun_with_latency (m : KumaMonitor) (b : Bool) (msg : Option String)
    (f : Params → Except PyExc Response) (now : ℚ) (a : ℚ)
    (hinc : m.include_latency = true) (havg : averageLatency m.history = .ok a) :
    pushRun m (.ok b) (.ok msg) f now =
      match f ⟨if b then "up" else "down", orNone msg, some a⟩ with
      | .error e => ⟨.error e, m, [], [⟨if b then "up" else "down", orNone msg, some a⟩]⟩
      | .ok resp =>
        ⟨.ok resp,
          if resp.status_code = 200 then { m with last_push := some now } else m,
          [.kumaPush resp], [⟨if b then "up" else "down", orNone msg, some a⟩]⟩ := by
  simp [pushRun, hinc, havg]

/-- An average-latency failure propagates before any request is issued. -/
lemma pushRun_avg_error (m : KumaMonitor) (b : Bool) (msg : Option String)
    (f : Params → Except PyExc Response) (now : ℚ) (e : PyExc)
    (hinc : m.include_latency = true) (havg : averageLatency m.history = .error e) :
    pushRun m (.ok b) (.ok msg) f now = ⟨.error e, m, [], []⟩ := by
  simp [pushRun, hinc, havg]

/-- On a non-empty history the average is the rounded arithmetic mean. -/
lemma averageLatency_ok (h : List ℚ) (hne : h ≠ []) :
    averageLatency h = .ok (round2 (h.sum / (h.length : ℚ))) := by
  have hz : ¬ (h.length = 0) := by simpa [List.length_eq_zero] using hne
  simp [averageLatency, hz]

/-- Inversion: whenever `push` returns a response, the state update is the
conditional last-push assignment and exactly the push-completed
notification was dispatched. -/
lemma pushRun_ok_inv (m : KumaMonitor) (statusRes : Except PyExc Bool)
    (msgRes : Except PyExc (Option String))
    (f : Params → Except PyExc Response) (now : ℚ) (resp : Response)
    (hres : (pushRun m statusRes msgRes f now).result = .ok resp) :
    (pushRun m statusRes msgRes f now).state =
      (if resp.status_code = 200 then { m with last_push := some now } else m) ∧
    (pushRun m statusRes msgRes f now).events = [Event.kumaPush resp] := by
  cases statusRes with
  | error e => rw [pushRun_error_status] at hres; simp at hres
  | ok b =>
    cases msgRes with
    | error e => rw [pushRun_error_msg] at hres; simp at hres
    | ok msg =>
      cases hinc : m.include_latency with
      | false =>
        rw [pushRun_no_latency m b msg f now hinc] at hres ⊢
        cases hf : f ⟨if b then "up" else "down", orNone msg, none⟩ with
        | error e => rw [hf] at hres; exact Except.noConfusion hres
        | ok r =>
          rw [hf] at hres
          have h := Except.ok.inj hres
          subst h
          rw [hinc]
          exact ⟨rfl, rfl⟩
      | true =>
        cases havg : averageLatency m.history with
        | error e =>
          rw [pushRun_avg_error m b msg f now e hinc havg] at hres
          simp at hres
        | ok a =>
          rw [pushRun_with_latency m b msg f now a hinc havg] at hres ⊢
          cases hf : f ⟨if b then "up" else "down", orNone msg, some a⟩ with
          | error e => rw [hf] at hres; exact Except.noConfusion hres
          | ok r =>
            rw [hf] at hres
            have h := Except.ok.inj hres
            subst h
            rw [hinc]
            exact ⟨rfl, rfl⟩

/-- C3: when push() receives a 200 response, last_push is set to the current
time, which is at least its previous value; any non-200 response leaves
last_push unchanged. -/
theorem C3_last_push_update (m : KumaMonitor) (statusRes : Except PyExc Bool)
    (msgRes : Except PyExc (Option String))
    (httpGet : Params → Except PyExc Response) (now : ℚ) (resp : Response)
    (hclock : m.last_push.getD now ≤ now)
    (hres : (pushRun m statusRes msgRes httpGet now).result = .ok resp) :
    (resp.status_code = 200 →
      (pushRun m statusRes msgRes httpGet now).state.last_push = some now ∧
      m.last_push.getD now ≤
        ((pushRun m statusRes msgRes httpGet now).state.last_push).getD now) ∧
    (resp.status_code ≠ 200 →
      (pushRun m statusRes msgRes httpGet now).state.last_push = m.last_push) := by
  obtain ⟨hstate, -⟩ := pushRun_ok_inv m statusRes msgRes httpGet now resp hres
  constructor
  · intro h200
    rw [hstate, if_pos h200]
    exact ⟨rfl, by simpa using hclock⟩
  · intro h200
    rw [hstate, if_neg h200]

/-- Witness for C3 at a concrete 200 push from a fresh monitor. -/
theorem C3_last_push_update_witness :
    ((⟨false, [], none⟩ : KumaMonitor).last_push.getD 5 ≤ 5) ∧
    ((pushRun ⟨false, [], none⟩ (.ok true) (.ok (some "OK"))
        (fun _ => .ok ⟨200⟩) 5).result = .ok ⟨200⟩) ∧
    (((⟨200⟩ : Response).status_code = 200 →
      (pushRun ⟨false, [], none⟩ (.ok true) (.ok (some "OK"))
          (fun _ => .ok ⟨200⟩) 5).state.last_push = some 5 ∧
      (⟨false, [], none⟩ : KumaMonitor).last_push.getD 5 ≤
        ((pushRun ⟨false, [], none⟩ (.ok true) (.ok (some "OK"))
          (fun _ => .ok ⟨200⟩) 5).state.last_push).getD 5) ∧
    ((⟨200⟩ : Response).status_code ≠ 200 →
      (pushRun ⟨false, [], none⟩ (.ok true) (.ok (some "OK"))
          (fun _ => .ok ⟨200⟩) 5).state.last_push =
        (⟨false, [], none⟩ : KumaMonitor).last_push)) :=
  ⟨le_refl 5, rfl,
    C3_last_push_update ⟨false, [], none⟩ (.ok true) (.ok (some "OK"))
      (fun _ => .ok ⟨200⟩) 5 ⟨200⟩ (le_refl 5) rfl⟩

/-- C6: an exception from the status getter or the message getter propagates
unmodified to the caller; no request is issued, no notification is
dispatched, and last_push (the whole state) is unchanged. -/
theorem C6_getter_exception (m : KumaMonitor) (e : PyExc) (b : Bool)
    (msgRes : Except PyExc (Option String))
    (httpGet : Params → Except PyExc Response) (now : ℚ) :
    pushRun m (.error e) msgRes httpGet now = ⟨.error e, m, [], []⟩ ∧
    pushRun m (.ok b) (.error e) httpGet now = ⟨.error e, m, [], []⟩ :=
  ⟨rfl, rfl⟩

/-- C7: with latency included and an empty window, the average read raises a
division error that reaches the caller, no request is issued and nothing is
dispatched; no zero ping is ever silently sent. -/
theorem C7_empty_window_error (m : KumaMonitor) (b : Bool) (msg : Option String)
    (httpGet : Params → Except PyExc Response) (now : ℚ)
    (hinc : m.include_latency = true) (hh : m.history = []) :
    averageLatency m.history = .error .zeroDivision ∧
    pushRun m (.ok b) (.ok msg) httpGet now =
      ⟨.error .zeroDivision, m, [], []⟩ :=
  ⟨by rw [hh]; rfl, pushRun_empty_history m b msg httpGet now hinc hh⟩

/-- Witness for C7 on a fresh monitor with latency reporting enabled. -/
theorem C7_empty_window_error_witness :
    ((⟨true, [], none⟩ : KumaMonitor).include_latency = true) ∧
    ((⟨true, [], none⟩ : KumaMonitor).history = []) ∧
    (averageLatency (⟨true, [], none⟩ : KumaMonitor).history
        = .error .zeroDivision ∧
      pushRun ⟨true, [], none⟩ (.ok true) (.ok (some "OK"))
          (fun _ => .ok ⟨200⟩) 0 =
        ⟨.error .zeroDivision, ⟨true, [], none⟩, [], []⟩) :=
  ⟨rfl, rfl,
    C7_empty_window_error ⟨true, [], none⟩ true (some "OK")
      (fun _ => .ok ⟨200⟩) 0 rfl rfl⟩

/-- C8: whenever the HTTP call yields a response, push() dispatches the
push-completed notification with that response regardless of its status
code, and returns the response instead of raising. -/
theorem C8_response_dispatch (m : KumaMonitor) (b : Bool) (msg : Option String)
    (httpGet : Params → Except PyExc Response) (now : ℚ) (resp : Response)
    (hf : ∀ p, httpGet p = .ok resp)
    (hwin : m.include_latency = true → m.history ≠ []) :
    (pushRun m (.ok b) (.ok msg) httpGet now).result = .ok resp ∧
    (pushRun m (.ok b) (.ok msg) httpGet now).events = [Event.kumaPush resp] := by
  cases hinc : m.include_latency with
  | false =>
    rw [pushRun_no_latency m b msg httpGet now hinc, hf]
    exact ⟨rfl, rfl⟩
  | true =>
    rw [pushRun_with_latency m b msg httpGet now _ hinc
      (averageLatency_ok m.history (hwin hinc)), hf]
    exact ⟨rfl, rfl⟩

/-- Witness for C8 with a 503 response: still dispatched and returned. -/
theorem C8_response_dispatch_witness :
    (∀ p : Params, (fun _ => (.ok ⟨503⟩ : Except PyExc Response)) p = .ok ⟨503⟩) ∧
    ((⟨true, [12], none⟩ : KumaMonitor).include_latency = true →
      (⟨true, [12], none⟩ : KumaMonitor).history ≠ []) ∧
    ((pushRun ⟨true, [12], none⟩ (.ok false) (.ok none)
        (fun _ => .ok ⟨503⟩) 1).result = .ok ⟨503⟩ ∧
      (pushRun ⟨true, [12], none⟩ (.ok false) (.ok none)
        (fun _ => .ok ⟨503⟩) 1).events = [Event.kumaPush ⟨503⟩]) :=
  ⟨fun _ => rfl, fun _ => by decide,
    C8_response_dispatch ⟨true, [12], none⟩ false none
      (fun _ => .ok ⟨503⟩) 1 ⟨503⟩ (fun _ => rfl) (fun _ => by decide)⟩

/-- C10: with include_latency false, push() never reads the latency window:
no issued request carries a ping parameter, and the outcome (result,
notifications, requests) is identical for every window contents, so an
empty window cannot make it fail. -/
theorem C10_latency_disabled (m : KumaMonitor) (statusRes : Except PyExc Bool)
    (msgRes : Except PyExc (Option String))
    (httpGet : Params → Except PyExc Response) (now : ℚ) (h₂ : List ℚ)
    (hinc : m.include_latency = false) :
    (∀ p ∈ (pushRun m statusRes msgRes httpGet now).requests, p.ping = none) ∧
    (pushRun { m with history := h₂ } statusRes msgRes httpGet now).result
      = (pushRun m statusRes msgRes httpGet now).result ∧
    (pushRun { m with history := h₂ } statusRes msgRes httpGet now).events
      = (pushRun m statusRes msgRes httpGet now).events ∧
    (pushRun { m with history := h₂ } statusRes msgRes httpGet now).requests
      = (pushRun m statusRes msgRes httpGet now).requests := by
  cases statusRes with
  | error e =>
    exact ⟨fun p hp => absurd hp (List.not_mem_nil p), rfl, rfl, rfl⟩
  | ok b =>
    cases msgRes with
    | error e =>
      exact ⟨fun p hp => absurd hp (List.not_mem_nil p), rfl, rfl, rfl⟩
    | ok msg =>
      have hinc2 : ({ m with history := h₂ } : KumaMonitor).include_latency = false := hinc
      rw [pushRun_no_latency m b msg httpGet now hinc,
        pushRun_no_latency { m with history := h₂ } b msg httpGet now hinc2]
      cases hfp : httpGet ⟨if b then "up" else "down", orNone msg, none⟩ with
      | error e =>
        refine ⟨?_, rfl, rfl, rfl⟩
        intro p hp
        have hp2 : p ∈ [(⟨if b then "up" else "down", orNone msg, none⟩ : Params)] := hp
        rw [List.mem_singleton] at hp2
        subst hp2
        rfl
      | ok r =>
        refine ⟨?_, rfl, rfl, rfl⟩
        intro p hp
        have hp2 : p ∈ [(⟨if b then "up" else "down", orNone msg, none⟩ : Params)] := hp
        rw [List.mem_singleton] at hp2
        subst hp2
        rfl

/-- Witness for C10 with a recorded sample and an emptied window. -/
theorem C10_latency_disabled_witness :
    ((⟨false, [3], none⟩ : KumaMonitor).include_latency = false) ∧
    ((∀ p ∈ (pushRun ⟨false, [3], none⟩ (.ok true) (.ok none)
        (fun _ => .ok ⟨200⟩) 2).requests, p.ping = none) ∧
      (pushRun { (⟨false, [3], none⟩ : KumaMonitor) with history := [] }
          (.ok true) (.ok none) (fun _ => .ok ⟨200⟩) 2).result
        = (pushRun ⟨false, [3], none⟩ (.ok true) (.ok none)
            (fun _ => .ok ⟨200⟩) 2).result ∧
      (pushRun { (⟨false, [3], none⟩ : KumaMonitor) with history := [] }
          (.ok true) (.ok none) (fun _ => .ok ⟨200⟩) 2).events
        = (pushRun ⟨false, [3], none⟩ (.ok true) (.ok none)
            (fun _ => .ok ⟨200⟩) 2).events ∧
      (pushRun { (⟨false, [3], none⟩ : KumaMonitor) with history := [] }
          (.ok true) (.ok none) (fun _ => .ok ⟨200⟩) 2).requests
        = (pushRun ⟨false, [3], none⟩ (.ok true) (.ok none)
            (fun _ => .ok ⟨200⟩) 2).requests) :=
  ⟨rfl, C10_latency_disabled ⟨false, [3], none⟩ (.ok true) (.ok none)
    (fun _ => .ok ⟨200⟩) 2 [] rfl⟩

/-! Scheduler lifecycle lemmas. -/

/-- Under the start-only-when-idle discipline, at most one loop ever runs. -/
lemma safeOps_running_le_one : ∀ (ops : List SchedOp) (s : SchedulerState),
    s.running.length ≤ 1 → (∀ t, s.task = some t → s.running = [t]) →
    safeOps s ops = true → (runOps s ops).running.length ≤ 1 := by
  intro ops
  induction ops with
  | nil => intro s h1 _ _; simpa [runOps] using h1
  | cons op rest ih =>
    intro s h1 h2 hsafe
    cases op with
    | start =>
      simp only [safeOps, Bool.and_eq_true] at hsafe
      obtain ⟨hemp, hsafe2⟩ := hsafe
      have hse : s.running = [] := by simpa [List.isEmpty_iff] using hemp
      simp only [runOps]
      exact ih (schedStart s) (by simp [schedStart, hse])
        (fun t ht => by
          simp only [schedStart, Option.some.injEq] at ht
          simp [schedStart, hse, ht]) hsafe2
    | stop =>
      simp only [safeOps] at hsafe
      simp only [runOps]
      cases hts : s.task with
      | none =>
        have hss : schedStop s = s := by simp [schedStop, hts]
        rw [hss] at hsafe ⊢
        exact ih s h1 h2 hsafe
      | some t =>
        have hrt := h2 t hts
        have hss : schedStop s = { s with running := [], task := none } := by
          simp [schedStop, hts, hrt]
        rw [hss] at hsafe ⊢
        exact ih _ (by simp) (fun t2 ht2 => by simp at ht2) hsafe

/-- Counterexample to C4 as stated: after two start() calls with no stop()
in between, two main-loop tasks are alive at once; the second start()
replaced only the task reference, it did not cancel or replace the running
loop. -/
theorem C4_counterexample :
    (runOps schedInit [SchedOp.start, SchedOp.start]).running.length = 2 ∧
    ¬ (runOps schedInit [SchedOp.start, SchedOp.start]).running.length ≤ 1 ∧
    (runOps schedInit [SchedOp.start, SchedOp.start]).task = some 1 := by
  decide

/-- C4 amended: start() always replaces the single retained task reference
with the newly created task, but it does not cancel the previous loop (the
new loop is added to the running ones); at most one autopush loop runs at
any time provided every start() happens while no loop is running. -/
theorem C4_task_reference (ops : List SchedOp) (s : SchedulerState)
    (hsafe : safeOps schedInit ops = true) :
    (runOps schedInit ops).running.length ≤ 1 ∧
    (schedStart s).task = some s.nextId ∧
    (schedStart s).running = s.nextId :: s.running :=
  ⟨safeOps_running_le_one ops schedInit (by simp [schedInit])
      (fun t ht => by simp [schedInit] at ht) hsafe,
    rfl, rfl⟩

/-- Witness for C4 amended on the call sequence start, stop, start. -/
theorem C4_task_reference_witness :
    (safeOps schedInit [SchedOp.start, SchedOp.stop, SchedOp.start] = true) ∧
    ((runOps schedInit [SchedOp.start, SchedOp.stop, SchedOp.start]).running.length ≤ 1 ∧
      (schedStart ⟨5, [4], some 4⟩).task
        = some (⟨5, [4], some 4⟩ : SchedulerState).nextId ∧
      (schedStart ⟨5, [4], some 4⟩).running
        = (⟨5, [4], some 4⟩ : SchedulerState).nextId ::
            (⟨5, [4], some 4⟩ : SchedulerState).running) :=
  ⟨by decide,
    C4_task_reference [SchedOp.start, SchedOp.stop, SchedOp.start]
      ⟨5, [4], some 4⟩ (by decide)⟩

/-- C9: stop() on a monitor with no retained task changes nothing (its body
has no raising statement to execute) and leaves the Idle state with no
task reference; stopping twice is the same as stopping once. -/
theorem C9_stop_idempotent (s s₂ : SchedulerState) (h : s.task = none) :
    schedStop s = s ∧ (schedStop s).task = none ∧
    schedStop (schedStop s₂) = schedStop s₂ := by
  have h1 : schedStop s = s := by simp [schedStop, h]
  refine ⟨h1, by rw [h1]; exact h, ?_⟩
  cases ht : s₂.task with
  | none => simp [schedStop, ht]
  | some t => simp [schedStop, ht]

/-- Witness for C9 on a never-started monitor and a running one. -/
theorem C9_stop_idempotent_witness :
    ((⟨0, [], none⟩ : SchedulerState).task = none) ∧
    (schedStop ⟨0, [], none⟩ = ⟨0, [], none⟩ ∧
      (schedStop ⟨0, [], none⟩).task = none ∧
      schedStop (schedStop ⟨2, [1], some 1⟩) = schedStop ⟨2, [1], some 1⟩) :=
  ⟨rfl, C9_stop_idempotent ⟨0, [], none⟩ ⟨2, [1], some 1⟩ rfl⟩

/-- Counterexample to C5 as stated: when the latency computation raises, the
message listener propagates that exception into the host dispatch instead
of swallowing or logging it. -/
theorem C5_counterexample :
    messageListener (.error (.exc "latency failed")) []
      = .error (.exc "latency failed") ∧
    (messageListener (.error (.exc "latency failed")) []).isOk = false :=
  ⟨rfl, rfl⟩

/-- C5 amended: the event-sampling handler catches nothing: it raises
exactly when the latency computation raises, propagating that exception
unmodified into the host dispatch, and when the computation succeeds it
appends the sample to the window and does not raise. -/
theorem C5_listener_propagation (latencyRes : Except PyExc ℚ) (h : List ℚ)
    (e : PyExc) (v : ℚ) :
    (latencyRes = .error e → messageListener latencyRes h = .error e) ∧
    (latencyRes = .ok v → messageListener latencyRes h = .ok (dequeAppend h v)) := by
  constructor
  · intro he; subst he; rfl
  · intro hv; subst hv; rfl

/-- Witness for C5 amended on a raising and a succeeding latency call. -/
theorem C5_listener_propagation_witness :
    messageListener (.error (.exc "boom")) [5] = .error (.exc "boom") ∧
    messageListener (.ok 7) [5] = .ok (dequeAppend [5] 7) :=
  ⟨(C5_listener_propagation (.error (.exc "boom")) [5] (.exc "boom") 7).1 rfl,
    (C5_listener_propagation (.ok 7) [5] (.exc "boom") 7).2 rfl⟩
